import Mathlib

/-
Verification of the funscript data model and curve simplifier
(src/funscript.rs of the funscript-rs repository).

The Rust code is shallowly embedded:
 * JSON documents are modelled by the inductive `Json` (numbers carry
   their numeric value as a rational, which is the value space reachable
   by the i32/i64/f32 fields of the schema).
 * The serde-derived serializer/deserializer of each struct is translated
   according to serde's documented semantics for
   `deny_unknown_fields` / `rename_all = "camelCase"` / `default` /
   `rename` attributes: serialization emits the fields in declaration
   order under their renamed keys; deserialization rejects unknown and
   duplicate keys, and a missing field is filled from `Default::default()`
   only for the one container (`FScript`) that carries `#[serde(default)]`.
 * Machine integers are `Int` with explicit 32/64-bit range checks where
   serde_json performs them; `f32` fields are modelled by `ℚ`.
 * Fallible operations return `Except`.
 * The filesystem is modelled as an association list from paths to the
   stored document trees, threaded explicitly through `save_funscript`.
-/

set_option autoImplicit false

namespace Funscript

/-- Model of a serde_json `Value`: a JSON document tree.  A number node
carries its numeric value. -/
inductive Json where
  | null
  | bool (b : Bool)
  | num (q : ℚ)
  | str (s : String)
  | arr (elems : List Json)
  | obj (fields : List (String × Json))

/-- Top-level keys of a JSON object (empty for non-objects). -/
def Json.objKeys : Json → List String
  | .obj fields => fields.map Prod.fst
  | _ => []

/-- Rust struct `FSPoint` (a .funscript action point).  The source field
`at` is a Lean keyword, so it is embedded as `at_`. -/
structure FSPoint where
  pos : Int
  at_ : Int

/-- Rust struct `SimulatorPresets`. -/
structure SimulatorPresets where
  name : String
  full_range : Bool
  direction : Int
  rotation : ℚ
  length : ℚ
  width : ℚ
  offset : String
  color : String

/-- Rust struct `OFSMetadata`.  The source field `ofs_type` is serialized
under the key "type"; `script_url` and `video_url` carry explicit
`#[serde(rename = ...)]` attributes keeping their snake_case names. -/
structure OFSMetadata where
  bookmarks : List Int
  chapters : List String
  creator : String
  description : String
  duration : Int
  license : String
  notes : String
  performers : List String
  script_url : String
  tags : List String
  title : String
  ofs_type : String
  video_url : String

/-- Rust struct `FScript` (the root document).  The source field
`speed_ratio` is embedded as `speed_ratio_val`. -/
structure FScript where
  version : String
  inverted : Bool
  range : Int
  bookmark : Int
  last_position : Int
  graph_duration : Int
  speed_ratio_val : ℚ
  injection_speed : Int
  injection_bias : ℚ
  scripting_mode : Int
  simulator_presets : List SimulatorPresets
  active_simulator : Int
  reduction_tolerance : ℚ
  reduction_stretch : ℚ
  clips : List Json
  actions : List FSPoint
  raw_actions : List FSPoint
  metadata : OFSMetadata

/-- Translation of `impl Default for FScript` (funscript.rs lines 78-115),
including the inline all-default metadata. -/
def FScript.default : FScript where
  version := ""
  inverted := false
  range := -1
  bookmark := -1
  last_position := -1
  graph_duration := -1
  speed_ratio_val := -1
  injection_speed := -1
  injection_bias := -1
  scripting_mode := -1
  simulator_presets := []
  active_simulator := -1
  reduction_tolerance := -1
  reduction_stretch := -1
  clips := []
  actions := []
  raw_actions := []
  metadata :=
    { bookmarks := []
      chapters := []
      creator := ""
      description := ""
      duration := -1
      license := ""
      notes := ""
      performers := []
      script_url := ""
      tags := []
      title := ""
      ofs_type := ""
      video_url := "" }

/-- Recognized JSON keys of `FSPoint` (serde camelCase leaves the
single-word names unchanged). -/
def fspointKeys : List String := ["pos", "at"]

/-- Recognized JSON keys of `SimulatorPresets` under
`rename_all = "camelCase"`. -/
def simulatorKeys : List String :=
  ["name", "fullRange", "direction", "rotation", "length", "width",
   "offset", "color"]

/-- Recognized JSON keys of `OFSMetadata`: camelCase except the explicit
renames `script_url`, `video_url`, and `type` for `ofs_type`. -/
def ofsMetadataKeys : List String :=
  ["bookmarks", "chapters", "creator", "description", "duration",
   "license", "notes", "performers", "script_url", "tags", "title",
   "type", "video_url"]

/-- Recognized JSON keys of `FScript` under `rename_all = "camelCase"`. -/
def fscriptKeys : List String :=
  ["version", "inverted", "range", "bookmark", "lastPosition",
   "graphDuration", "speedRatio", "injectionSpeed", "injectionBias",
   "scriptingMode", "simulatorPresets", "activeSimulator",
   "reductionTolerance", "reductionStretch", "clips", "actions",
   "rawActions", "metadata"]

/-- Serialization of an i32/i64 field: the integer as a JSON number. -/
def serializeInt (n : Int) : Json := .num (n : ℚ)

/-- Serialization of an `FSPoint` in declaration order. -/
def serializeFSPoint (p : FSPoint) : Json :=
  .obj [("pos", serializeInt p.pos), ("at", serializeInt p.at_)]

/-- Serialization of a `SimulatorPresets` in declaration order. -/
def serializeSimulatorPresets (s : SimulatorPresets) : Json :=
  .obj [("name", .str s.name),
        ("fullRange", .bool s.full_range),
        ("direction", serializeInt s.direction),
        ("rotation", .num s.rotation),
        ("length", .num s.length),
        ("width", .num s.width),
        ("offset", .str s.offset),
        ("color", .str s.color)]

/-- Serialization of an `OFSMetadata` in declaration order. -/
def serializeOFSMetadata (m : OFSMetadata) : Json :=
  .obj [("bookmarks", .arr (m.bookmarks.map serializeInt)),
        ("chapters", .arr (m.chapters.map .str)),
        ("creator", .str m.creator),
        ("description", .str m.description),
        ("duration", serializeInt m.duration),
        ("license", .str m.license),
        ("notes", .str m.notes),
        ("performers", .arr (m.performers.map .str)),
        ("script_url", .str m.script_url),
        ("tags", .arr (m.tags.map .str)),
        ("title", .str m.title),
        ("type", .str m.ofs_type),
        ("video_url", .str m.video_url)]

/-- Serialization of an `FScript` in declaration order; this is the tree
printed by `serde_json::to_string_pretty`. -/
def serializeFScript (d : FScript) : Json :=
  .obj [("version", .str d.version),
        ("inverted", .bool d.inverted),
        ("range", serializeInt d.range),
        ("bookmark", serializeInt d.bookmark),
        ("lastPosition", serializeInt d.last_position),
        ("graphDuration", serializeInt d.graph_duration),
        ("speedRatio", .num d.speed_ratio_val),
        ("injectionSpeed", serializeInt d.injection_speed),
        ("injectionBias", .num d.injection_bias),
        ("scriptingMode", serializeInt d.scripting_mode),
        ("simulatorPresets", .arr (d.simulator_presets.map serializeSimulatorPresets)),
        ("activeSimulator", serializeInt d.active_simulator),
        ("reductionTolerance", .num d.reduction_tolerance),
        ("reductionStretch", .num d.reduction_stretch),
        ("clips", .arr d.clips),
        ("actions", .arr (d.actions.map serializeFSPoint)),
        ("rawActions", .arr (d.raw_actions.map serializeFSPoint)),
        ("metadata", serializeOFSMetadata d.metadata)]

/-- Holds when every key of the object belongs to the recognized key set
`ks`; serde's `deny_unknown_fields` rejects anything else. -/
def allRecognized (ks : List String) (fields : List (String × Json)) : Bool :=
  fields.all (fun kv => ks.contains kv.1)

/-- Serde's struct visitor errors on a duplicate occurrence of a field. -/
def distinctKeys : List String → Bool
  | [] => true
  | k :: ks => !ks.contains k && distinctKeys ks

/-- Extraction of a required field (a struct without `#[serde(default)]`
errors when the field is missing). -/
def reqField {α : Type} (fields : List (String × Json)) (k : String)
    (p : Json → Except String α) : Except String α :=
  match fields.lookup k with
  | some v => p v
  | none => .error ("missing field " ++ k)

/-- Extraction of a defaultable field (`#[serde(default)]` on `FScript`
fills a missing field from `Default::default()`). -/
def optField {α : Type} (fields : List (String × Json)) (k : String)
    (p : Json → Except String α) (dflt : α) : Except String α :=
  match fields.lookup k with
  | some v => p v
  | none => .ok dflt

/-- Deserialization of an i32 field: serde_json requires an integral
number fitting 32 signed bits. -/
def parseI32 (j : Json) : Except String Int :=
  match j with
  | .num q =>
      if q.den = 1 then
        if -(2 ^ 31) ≤ q.num ∧ q.num ≤ 2 ^ 31 - 1 then .ok q.num
        else .error "integer out of range for i32"
      else .error "invalid type: non-integral number for i32"
  | _ => .error "invalid type: expected i32"

/-- Deserialization of an i64 field (`last_position`). -/
def parseI64 (j : Json) : Except String Int :=
  match j with
  | .num q =>
      if q.den = 1 then
        if -(2 ^ 63) ≤ q.num ∧ q.num ≤ 2 ^ 63 - 1 then .ok q.num
        else .error "integer out of range for i64"
      else .error "invalid type: non-integral number for i64"
  | _ => .error "invalid type: expected i64"

/-- Deserialization of an f32 field: any JSON number. -/
def parseF32 (j : Json) : Except String ℚ :=
  match j with
  | .num q => .ok q
  | _ => .error "invalid type: expected f32"

/-- Deserialization of a bool field. -/
def parseBool (j : Json) : Except String Bool :=
  match j with
  | .bool b => .ok b
  | _ => .error "invalid type: expected bool"

/-- Deserialization of a String field. -/
def parseString (j : Json) : Except String String :=
  match j with
  | .str s => .ok s
  | _ => .error "invalid type: expected string"

/-- Elementwise deserialization of a JSON array body. -/
def parseArr {α : Type} (p : Json → Except String α) :
    List Json → Except String (List α)
  | [] => .ok []
  | x :: xs => do
      let a ← p x
      let rest ← parseArr p xs
      .ok (a :: rest)

/-- Deserialization of a `Vec<T>` field. -/
def parseListOf {α : Type} (p : Json → Except String α) (j : Json) :
    Except String (List α) :=
  match j with
  | .arr xs => parseArr p xs
  | _ => .error "invalid type: expected array"

/-- Deserialization of a `Vec<Value>` field (`clips`): the elements are
kept verbatim, unvalidated. -/
def parseClips (j : Json) : Except String (List Json) :=
  match j with
  | .arr xs => .ok xs
  | _ => .error "invalid type: expected array"

/-- Deserialization of `FSPoint` (`deny_unknown_fields`, no default:
both fields are required). -/
def parseFSPoint (j : Json) : Except String FSPoint :=
  match j with
  | .obj fields =>
      if allRecognized fspointKeys fields then
        if distinctKeys (fields.map Prod.fst) then do
          let pos ← reqField fields "pos" parseI32
          let at1 ← reqField fields "at" parseI32
          .ok ⟨pos, at1⟩
        else .error "duplicate field"
      else .error "unknown field"
  | _ => .error "invalid type: expected object"

/-- Deserialization of `SimulatorPresets` (all fields required). -/
def parseSimulatorPresets (j : Json) : Except String SimulatorPresets :=
  match j with
  | .obj fields =>
      if allRecognized simulatorKeys fields then
        if distinctKeys (fields.map Prod.fst) then do
          let name ← reqField fields "name" parseString
          let full_range ← reqField fields "fullRange" parseBool
          let direction ← reqField fields "direction" parseI32
          let rotation ← reqField fields "rotation" parseF32
          let length ← reqField fields "length" parseF32
          let width ← reqField fields "width" parseF32
          let offset ← reqField fields "offset" parseString
          let color ← reqField fields "color" parseString
          .ok ⟨name, full_range, direction, rotation, length, width,
               offset, color⟩
        else .error "duplicate field"
      else .error "unknown field"
  | _ => .error "invalid type: expected object"

/-- Deserialization of `OFSMetadata` (all fields required: the struct has
no `#[serde(default)]` attribute). -/
def parseOFSMetadata (j : Json) : Except String OFSMetadata :=
  match j with
  | .obj fields =>
      if allRecognized ofsMetadataKeys fields then
        if distinctKeys (fields.map Prod.fst) then do
          let bookmarks ← reqField fields "bookmarks" (parseListOf parseI32)
          let chapters ← reqField fields "chapters" (parseListOf parseString)
          let creator ← reqField fields "creator" parseString
          let description ← reqField fields "description" parseString
          let duration ← reqField fields "duration" parseI32
          let license ← reqField fields "license" parseString
          let notes ← reqField fields "notes" parseString
          let performers ← reqField fields "performers" (parseListOf parseString)
          let script_url ← reqField fields "script_url" parseString
          let tags ← reqField fields "tags" (parseListOf parseString)
          let title ← reqField fields "title" parseString
          let ofs_type ← reqField fields "type" parseString
          let video_url ← reqField fields "video_url" parseString
          .ok ⟨bookmarks, chapters, creator, description, duration,
               license, notes, performers, script_url, tags, title,
               ofs_type, video_url⟩
        else .error "duplicate field"
      else .error "unknown field"
  | _ => .error "invalid type: expected object"

/-- Deserialization of `FScript`: `deny_unknown_fields` plus container
`default`, so every missing field is filled from `FScript.default`. -/
def parseFScript (j : Json) : Except String FScript :=
  match j with
  | .obj fields =>
      if allRecognized fscriptKeys fields then
        if distinctKeys (fields.map Prod.fst) then do
          let version ← optField fields "version" parseString
            FScript.default.version
          let inverted ← optField fields "inverted" parseBool
            FScript.default.inverted
          let range ← optField fields "range" parseI32
            FScript.default.range
          let bookmark ← optField fields "bookmark" parseI32
            FScript.default.bookmark
          let last_position ← optField fields "lastPosition" parseI64
            FScript.default.last_position
          let graph_duration ← optField fields "graphDuration" parseI32
            FScript.default.graph_duration
          let speed_ratio_val ← optField fields "speedRatio" parseF32
            FScript.default.speed_ratio_val
          let injection_speed ← optField fields "injectionSpeed" parseI32
            FScript.default.injection_speed
          let injection_bias ← optField fields "injectionBias" parseF32
            FScript.default.injection_bias
          let scripting_mode ← optField fields "scriptingMode" parseI32
            FScript.default.scripting_mode
          let simulator_presets ← optField fields "simulatorPresets"
            (parseListOf parseSimulatorPresets) FScript.default.simulator_presets
          let active_simulator ← optField fields "activeSimulator" parseI32
            FScript.default.active_simulator
          let reduction_tolerance ← optField fields "reductionTolerance" parseF32
            FScript.default.reduction_tolerance
          let reduction_stretch ← optField fields "reductionStretch" parseF32
            FScript.default.reduction_stretch
          let clips ← optField fields "clips" parseClips
            FScript.default.clips
          let actions ← optField fields "actions" (parseListOf parseFSPoint)
            FScript.default.actions
          let raw_actions ← optField fields "rawActions" (parseListOf parseFSPoint)
            FScript.default.raw_actions
          let metadata ← optField fields "metadata" parseOFSMetadata
            FScript.default.metadata
          .ok ⟨version, inverted, range, bookmark, last_position,
               graph_duration, speed_ratio_val, injection_speed,
               injection_bias, scripting_mode, simulator_presets,
               active_simulator, reduction_tolerance, reduction_stretch,
               clips, actions, raw_actions, metadata⟩
        else .error "duplicate field"
      else .error "unknown field"
  | _ => .error "invalid type: expected object"

/-- Mirror of `std::io::ErrorKind` restricted to the kinds the model
distinguishes. -/
inductive IOErrorKind where
  | notFound
  | permissionDenied
  | other

/-- Mirror of `std::io::Error`: a kind plus a message. -/
structure IOErr where
  kind : IOErrorKind
  msg : String

/-- Translation of `enum FunscriptError` (funscript.rs lines 118-126). -/
inductive FunscriptError where
  | FileReadError (e : IOErr)
  | JsonError (msg : String)
  | PointError (op : String) (idx : Nat)

/-- The error `save_funscript` builds for a bad extension:
`io::Error::new(ErrorKind::Other, "invalid file extension")` wrapped in
`FunscriptError::FileReadError`. -/
def invalidExtensionError : FunscriptError :=
  .FileReadError ⟨.other, "invalid file extension"⟩

/-- The filesystem, modelled as an association list from paths to the
stored document trees. -/
abbrev FileSys := List (String × Json)

/-- Model of Rust `str::ends_with` (an exact suffix check). -/
def rustEndsWith (s suffix : String) : Bool :=
  suffix.data.isSuffixOf s.data

/-- Translation of `load_funscript` (funscript.rs lines 129-133): read
the file, then parse; the two failure kinds stay distinct. -/
def load_funscript (fs : FileSys) (path : String) :
    Except FunscriptError FScript :=
  match fs.lookup path with
  | none => .error (.FileReadError ⟨.notFound, "No such file or directory"⟩)
  | some j =>
      match parseFScript j with
      | .ok d => .ok d
      | .error m => .error (.JsonError m)

/-- Translation of `save_funscript` (funscript.rs lines 136-147): reject
a path not ending in ".funscript" before touching the filesystem,
otherwise write the serialized document.  (In the model serialization is
total, as `serde_json::to_string_pretty` is on this schema.) -/
def save_funscript (fs : FileSys) (path : String) (script : FScript) :
    Except FunscriptError Unit × FileSys :=
  if !rustEndsWith path ".funscript" then (.error invalidExtensionError, fs)
  else (.ok (), (path, serializeFScript script) :: fs)

/-- Translation of `get_pt` (funscript.rs lines 150-155): bounds check,
then the point at `idx`. -/
def get_pt (script : FScript) (idx : Nat) : Except FunscriptError FSPoint :=
  if idx ≥ script.actions.length then .error (.PointError "get" idx)
  else .ok (script.actions.getD idx ⟨0, 0⟩)

/-- Model of an assignment through the mutable reference returned by
`get_pt`: the point at `idx` is replaced in place. -/
def set_pt (script : FScript) (idx : Nat) (p : FSPoint) : FScript :=
  { script with actions := script.actions.set idx p }

/-
Modelled from the spec: the `rdp` function of the external
`ramer_douglas_peucker` crate is not part of this repository's sources;
the definitions `crossSq` through `rdp` below follow spec section 4.2:
treat the actions as a polyline, recursively find the interior point of
maximal perpendicular distance from the line joining the two endpoints,
split there when that distance exceeds `epsilon`, otherwise keep only
the endpoints; the whole sequence's endpoints are always retained and
`rdp` returns the retained indices in ascending order.
-/

/-- Squared cross product of `b - a` with `p - a`: the numerator of the
squared perpendicular distance of `p` from the line through `a` and `b`. -/
def crossSq (a b p : Int × Int) : Int :=
  ((b.1 - a.1) * (a.2 - p.2) - (a.1 - p.1) * (b.2 - a.2)) ^ 2

/-- Squared length of the segment `a`-`b`: the denominator of the squared
perpendicular distance. -/
def segLenSq (a b : Int × Int) : Int :=
  (b.1 - a.1) ^ 2 + (b.2 - a.2) ^ 2

/-- Modelled from the spec: the perpendicular distance of `p` from the
line through `a` and `b` exceeds the tolerance `eps ≥ 0`; stated without
square roots by comparing squares. -/
def exceedsEps (eps : ℚ) (a b p : Int × Int) : Bool :=
  decide (eps ^ 2 * ((segLenSq a b : Int) : ℚ) < ((crossSq a b p : Int) : ℚ))

/-- Running argmax of `crossSq` over candidate indices (ties keep the
earlier index). -/
def pickMax (pts : List (Int × Int)) (a b : Int × Int) :
    Nat → Int → List Nat → Nat
  | best, _, [] => best
  | best, bestVal, i :: rest =>
      let c := crossSq a b (pts.getD i (0, 0))
      if bestVal < c then pickMax pts a b i c rest
      else pickMax pts a b best bestVal rest

/-- Index of an interior point of `[lo, hi]` farthest from the segment
joining `pts[lo]` and `pts[hi]` (meaningful when `lo + 2 ≤ hi`). -/
def splitIdx (pts : List (Int × Int)) (lo hi : Nat) : Nat :=
  let a := pts.getD lo (0, 0)
  let b := pts.getD hi (0, 0)
  pickMax pts a b (lo + 1) (crossSq a b (pts.getD (lo + 1) (0, 0)))
    (List.range' (lo + 2) (hi - lo - 2))

/-- Modelled from the spec: the RDP recursion on the index range
`[lo, hi]`, returning the retained indices of `[lo, hi)` in ascending
order (the closing endpoint is appended once at top level).  The `fuel`
argument bounds the recursion depth; `hi - lo` always suffices, and the
`fuel = 0` case is never reached from `rdp`. -/
def rdpRec (pts : List (Int × Int)) (eps : ℚ) :
    Nat → Nat → Nat → List Nat
  | 0, lo, _ => [lo]
  | fuel + 1, lo, hi =>
      if hi ≤ lo + 1 then [lo]
      else
        let i := splitIdx pts lo hi
        if exceedsEps eps (pts.getD lo (0, 0)) (pts.getD hi (0, 0))
            (pts.getD i (0, 0)) then
          rdpRec pts eps fuel lo i ++ rdpRec pts eps fuel i hi
        else [lo]

/-- Modelled from the spec: the retained indices of the whole polyline,
in ascending order; both endpoints are always retained, and 0 or 1
points are left as they are. -/
def rdp (pts : List (Int × Int)) (eps : ℚ) : List Nat :=
  match pts with
  | [] => []
  | [_] => [0]
  | _ :: _ :: _ =>
      rdpRec pts eps (pts.length - 1) 0 (pts.length - 1) ++
        [pts.length - 1]

/-- The conversion `actions` → `points` of `apply_rdp`:
`Point2 { x: pt.at, y: pt.pos }`. -/
def ptOfFSPoint (p : FSPoint) : Int × Int := (p.at_, p.pos)

/-- The conversion back: `FSPoint { at: pt.x, pos: pt.y }`. -/
def fspointOfPt (q : Int × Int) : FSPoint := ⟨q.2, q.1⟩

/-- Translation of `apply_rdp` (funscript.rs lines 158-181): build the
point list, run `rdp`, and replace `actions` by the retained points. -/
def apply_rdp (script : FScript) (eps : ℚ) : FScript :=
  let points := script.actions.map ptOfFSPoint
  let idxs := rdp points eps
  let reduced := idxs.map (fun i => points.getD i (0, 0))
  { script with actions := reduced.map fspointOfPt }

/-- Concrete three-point document (the collinear scenario of the spec),
used to exercise the simplifier and point-access theorems. -/
def sampleScript : FScript :=
  { FScript.default with
      actions := [⟨0, 0⟩, ⟨50, 1⟩, ⟨100, 2⟩],
      raw_actions := [⟨0, 0⟩, ⟨50, 1⟩, ⟨100, 2⟩] }

/-- Concrete one-point document. -/
def onePointScript : FScript :=
  { FScript.default with actions := [⟨50, 100⟩] }

/-- Concrete two-point document. -/
def twoPointScript : FScript :=
  { FScript.default with actions := [⟨0, 0⟩, ⟨100, 2⟩] }

/-- Range invariant of an `i32` field. -/
def isI32 (n : Int) : Prop := -(2 ^ 31) ≤ n ∧ n ≤ 2 ^ 31 - 1

/-- Range invariant of an `i64` field. -/
def isI64 (n : Int) : Prop := -(2 ^ 63) ≤ n ∧ n ≤ 2 ^ 63 - 1

/-- Well-formedness of an embedded `FSPoint`: what the Rust types
guarantee (both fields are machine `i32` values). -/
def FSPoint.WF (p : FSPoint) : Prop := isI32 p.pos ∧ isI32 p.at_

/-- Well-formedness of an embedded `SimulatorPresets`. -/
def SimulatorPresets.WF (s : SimulatorPresets) : Prop := isI32 s.direction

/-- Well-formedness of an embedded `OFSMetadata`. -/
def OFSMetadata.WF (m : OFSMetadata) : Prop :=
  (∀ n ∈ m.bookmarks, isI32 n) ∧ isI32 m.duration

/-- Well-formedness of an embedded `FScript`: every integer field holds
a value of its Rust machine-integer type. -/
def FScript.WF (d : FScript) : Prop :=
  isI32 d.range ∧ isI32 d.bookmark ∧ isI64 d.last_position ∧
  isI32 d.graph_duration ∧ isI32 d.injection_speed ∧
  isI32 d.scripting_mode ∧ isI32 d.active_simulator ∧
  (∀ s ∈ d.simulator_presets, s.WF) ∧
  (∀ p ∈ d.actions, p.WF) ∧ (∀ p ∈ d.raw_actions, p.WF) ∧
  d.metadata.WF

/-! Helper lemmas: primitive and per-struct parse/serialize round trips. -/

theorem parseI32_serializeInt (n : Int) (h : isI32 n) :
    parseI32 (serializeInt n) = .ok n := by
  obtain ⟨h1, h2⟩ := h
  norm_num at h1 h2
  simp [parseI32, serializeInt, Rat.den_intCast, Rat.num_intCast, h1, h2]

theorem parseI64_serializeInt (n : Int) (h : isI64 n) :
    parseI64 (serializeInt n) = .ok n := by
  obtain ⟨h1, h2⟩ := h
  norm_num at h1 h2
  simp [parseI64, serializeInt, Rat.den_intCast, Rat.num_intCast, h1, h2]

theorem parseArr_map {α : Type} (p : Json → Except String α) (f : α → Json)
    (l : List α) (h : ∀ a ∈ l, p (f a) = .ok a) :
    parseArr p (l.map f) = .ok l := by
  induction l with
  | nil => rfl
  | cons a t ih =>
      have ha := h a (by simp)
      have ht := ih (fun x hx => h x (by simp [hx]))
      simp only [List.map_cons, parseArr, ha, ht]
      rfl

theorem parseListOf_map {α : Type} (p : Json → Except String α)
    (f : α → Json) (l : List α) (h : ∀ a ∈ l, p (f a) = .ok a) :
    parseListOf p (.arr (l.map f)) = .ok l :=
  parseArr_map p f l h

theorem parseListOf_str (l : List String) :
    parseListOf parseString (.arr (l.map .str)) = .ok l :=
  parseListOf_map _ _ l (fun _ _ => rfl)

theorem parseFSPoint_serialize (p : FSPoint) (h : p.WF) :
    parseFSPoint (serializeFSPoint p) = .ok p := by
  obtain ⟨h1, h2⟩ := h
  simp [parseFSPoint, serializeFSPoint, reqField, allRecognized,
    distinctKeys, fspointKeys, List.lookup,
    parseI32_serializeInt _ h1, parseI32_serializeInt _ h2]
  rfl

theorem parseSimulatorPresets_serialize (s : SimulatorPresets) (h : s.WF) :
    parseSimulatorPresets (serializeSimulatorPresets s) = .ok s := by
  simp [parseSimulatorPresets, serializeSimulatorPresets, reqField,
    allRecognized, distinctKeys, simulatorKeys, List.lookup,
    parseI32_serializeInt _ h]
  rfl

theorem parseOFSMetadata_serialize (m : OFSMetadata) (h : m.WF) :
    parseOFSMetadata (serializeOFSMetadata m) = .ok m := by
  obtain ⟨hb, hd⟩ := h
  have hbook : parseListOf parseI32 (.arr (m.bookmarks.map serializeInt)) =
      .ok m.bookmarks :=
    parseListOf_map _ _ _ (fun n hn => parseI32_serializeInt n (hb n hn))
  simp [parseOFSMetadata, serializeOFSMetadata, reqField, allRecognized,
    distinctKeys, ofsMetadataKeys, List.lookup, hbook, parseListOf_str,
    parseI32_serializeInt _ hd]
  rfl

/-! Helper lemmas: the RDP recursion. -/

theorem pickMax_mem (pts : List (Int × Int)) (a b : Int × Int) :
    ∀ (l : List Nat) (best : Nat) (bv : Int),
      pickMax pts a b best bv l = best ∨ pickMax pts a b best bv l ∈ l := by
  intro l
  induction l with
  | nil => intro best bv; left; rfl
  | cons i rest ih =>
      intro best bv
      simp only [pickMax]
      split
      · rcases ih i (crossSq a b (pts.getD i (0, 0))) with h | h
        · right; rw [h]; exact List.mem_cons_self i rest
        · right; exact List.mem_cons_of_mem i h
      · rcases ih best bv with h | h
        · left; exact h
        · right; exact List.mem_cons_of_mem i h

theorem splitIdx_bounds (pts : List (Int × Int)) (lo hi : Nat)
    (h : lo + 2 ≤ hi) :
    lo < splitIdx pts lo hi ∧ splitIdx pts lo hi < hi := by
  simp only [splitIdx]
  rcases pickMax_mem pts (pts.getD lo (0, 0)) (pts.getD hi (0, 0))
      (List.range' (lo + 2) (hi - lo - 2)) (lo + 1)
      (crossSq (pts.getD lo (0, 0)) (pts.getD hi (0, 0))
        (pts.getD (lo + 1) (0, 0))) with hm | hm
  · rw [hm]; omega
  · rw [List.mem_range'_1] at hm
    omega

theorem exceedsEps_mono (e1 e2 : ℚ) (a b p : Int × Int) (h0 : 0 ≤ e1)
    (h12 : e1 ≤ e2) (h : exceedsEps e2 a b p = true) :
    exceedsEps e1 a b p = true := by
  simp only [exceedsEps, decide_eq_true_eq] at h ⊢
  have hlen : (0 : ℚ) ≤ ((segLenSq a b : Int) : ℚ) := by
    have hz : (0 : Int) ≤ segLenSq a b := by unfold segLenSq; positivity
    exact_mod_cast hz
  have hsq : e1 ^ 2 ≤ e2 ^ 2 := pow_le_pow_left₀ h0 h12 2
  calc e1 ^ 2 * ((segLenSq a b : Int) : ℚ)
      ≤ e2 ^ 2 * ((segLenSq a b : Int) : ℚ) :=
        mul_le_mul_of_nonneg_right hsq hlen
    _ < ((crossSq a b p : Int) : ℚ) := h

theorem rdpRec_cons (pts : List (Int × Int)) (eps : ℚ) :
    ∀ (fuel lo hi : Nat), ∃ t, rdpRec pts eps fuel lo hi = lo :: t := by
  intro fuel
  induction fuel with
  | zero => intro lo hi; exact ⟨[], rfl⟩
  | succ fuel ih =>
      intro lo hi
      simp only [rdpRec]
      split
      · exact ⟨[], rfl⟩
      · split
        · obtain ⟨t, ht⟩ := ih lo (splitIdx pts lo hi)
          refine ⟨t ++ rdpRec pts eps fuel (splitIdx pts lo hi) hi, ?_⟩
          rw [ht]
          simp
        · exact ⟨[], rfl⟩

theorem rdpRec_sublist (pts : List (Int × Int)) (eps : ℚ) :
    ∀ (fuel lo hi : Nat), lo < hi → hi - lo ≤ fuel →
      List.Sublist (rdpRec pts eps fuel lo hi) (List.range' lo (hi - lo)) := by
  intro fuel
  induction fuel with
  | zero => intro lo hi h1 h2; omega
  | succ fuel ih =>
      intro lo hi h1 h2
      simp only [rdpRec]
      split
      · rename_i hle
        have he : hi - lo = 1 := by omega
        rw [he]
        simp
      · rename_i hgt
        have hb := splitIdx_bounds pts lo hi (by omega)
        split
        · have s1 := ih lo (splitIdx pts lo hi) hb.1 (by omega)
          have s2 := ih (splitIdx pts lo hi) hi hb.2 (by omega)
          have happ := List.Sublist.append s1 s2
          have heq : List.range' lo (splitIdx pts lo hi - lo) ++
              List.range' (splitIdx pts lo hi) (hi - splitIdx pts lo hi) =
              List.range' lo (hi - lo) := by
            have h3 : lo + (splitIdx pts lo hi - lo) = splitIdx pts lo hi := by
              omega
            have h4 : (hi - splitIdx pts lo hi) + (splitIdx pts lo hi - lo) =
                hi - lo := by omega
            rw [← h4, ← List.range'_append_1, h3]
          rw [heq] at happ
          exact happ
        · have he : hi - lo = (hi - lo - 1) + 1 := by omega
          rw [he, List.range'_succ]
          exact List.Sublist.cons₂ lo (List.nil_sublist _)

theorem rdpRec_mono (pts : List (Int × Int)) (e1 e2 : ℚ) (h0 : 0 ≤ e1)
    (h12 : e1 ≤ e2) :
    ∀ (fuel lo hi : Nat),
      List.Sublist (rdpRec pts e2 fuel lo hi) (rdpRec pts e1 fuel lo hi) := by
  intro fuel
  induction fuel with
  | zero => intro lo hi; exact List.Sublist.refl _
  | succ fuel ih =>
      intro lo hi
      simp only [rdpRec]
      split
      · exact List.Sublist.refl _
      · rename_i hgt
        by_cases hx2 : exceedsEps e2 (pts.getD lo (0, 0)) (pts.getD hi (0, 0))
            (pts.getD (splitIdx pts lo hi) (0, 0)) = true
        · have hx1 := exceedsEps_mono e1 e2 _ _ _ h0 h12 hx2
          rw [hx1, hx2]
          simp only [if_true]
          exact List.Sublist.append (ih lo (splitIdx pts lo hi))
            (ih (splitIdx pts lo hi) hi)
        · rw [Bool.not_eq_true] at hx2
          rw [hx2]
          simp only [Bool.false_eq_true, if_false]
          by_cases hx1 : exceedsEps e1 (pts.getD lo (0, 0))
              (pts.getD hi (0, 0))
              (pts.getD (splitIdx pts lo hi) (0, 0)) = true
          · rw [hx1]
            simp only [if_true]
            obtain ⟨t, ht⟩ := rdpRec_cons pts e1 fuel lo (splitIdx pts lo hi)
            rw [ht, List.cons_append]
            exact List.Sublist.cons₂ lo (List.nil_sublist _)
          · rw [Bool.not_eq_true] at hx1
            rw [hx1]
            simp

/-! Helper lemmas: the retained index list of `rdp`. -/

theorem rdp_sublist (pts : List (Int × Int)) (eps : ℚ) :
    List.Sublist (rdp pts eps) (List.range pts.length) := by
  match pts with
  | [] => exact List.nil_sublist _
  | [a] => simp [rdp]
  | a :: b :: t =>
      have hs := rdpRec_sublist (a :: b :: t) eps (t.length + 1) 0
        (t.length + 1) (by omega) (by omega)
      have happ := List.Sublist.append hs (List.Sublist.refl [t.length + 1])
      have heq : List.range' 0 (t.length + 1 - 0) ++ [t.length + 1] =
          List.range ((a :: b :: t).length) := by
        have h1 : [t.length + 1] = List.range' (0 + (t.length + 1 - 0)) 1 := by
          norm_num
        rw [h1, List.range'_append_1, List.range_eq_range']
        norm_num
        omega
      rw [heq] at happ
      exact happ

theorem rdp_head (pts : List (Int × Int)) (eps : ℚ) (h : pts ≠ []) :
    (rdp pts eps).head? = some 0 := by
  match pts with
  | [] => simp at h
  | [a] => rfl
  | a :: b :: t =>
      obtain ⟨tt, htt⟩ := rdpRec_cons (a :: b :: t) eps (t.length + 1) 0
        (t.length + 1)
      show (rdpRec (a :: b :: t) eps (t.length + 1) 0 (t.length + 1) ++
        [t.length + 1]).head? = some 0
      rw [htt]
      rfl

theorem rdp_getLast (pts : List (Int × Int)) (eps : ℚ) (h : pts ≠ []) :
    (rdp pts eps).getLast? = some (pts.length - 1) := by
  match pts with
  | [] => simp at h
  | [a] => rfl
  | a :: b :: t =>
      show (rdpRec (a :: b :: t) eps (t.length + 1) 0 (t.length + 1) ++
        [t.length + 1]).getLast? = some ((a :: b :: t).length - 1)
      rw [List.getLast?_concat]
      rfl

theorem rdp_mono (pts : List (Int × Int)) (e1 e2 : ℚ) (h0 : 0 ≤ e1)
    (h12 : e1 ≤ e2) : List.Sublist (rdp pts e2) (rdp pts e1) := by
  match pts with
  | [] => exact List.Sublist.refl _
  | [a] => exact List.Sublist.refl _
  | a :: b :: t =>
      exact List.Sublist.append
        (rdpRec_mono (a :: b :: t) e1 e2 h0 h12 (t.length + 1) 0
          (t.length + 1))
        (List.Sublist.refl _)

/-! Helper lemmas: reading `apply_rdp` back through the original list. -/

theorem range_map_getD {α : Type} (l : List α) (d : α) :
    (List.range l.length).map (fun i => l.getD i d) = l := by
  induction l with
  | nil => rfl
  | cons a t ih =>
      rw [List.length_cons, List.range_succ_eq_map, List.map_cons,
        List.map_map]
      have hc : (List.range t.length).map
          ((fun i => (a :: t).getD i d) ∘ Nat.succ) =
          (List.range t.length).map (fun i => t.getD i d) :=
        List.map_congr_left (fun i _ => rfl)
      rw [hc, ih]
      rfl

theorem apply_rdp_actions_eq (s : FScript) (eps : ℚ) :
    (apply_rdp s eps).actions =
      (rdp (s.actions.map ptOfFSPoint) eps).map
        (fun i => s.actions.getD i ⟨0, 0⟩) := by
  show ((rdp (s.actions.map ptOfFSPoint) eps).map
      (fun i => (s.actions.map ptOfFSPoint).getD i (0, 0))).map fspointOfPt =
    (rdp (s.actions.map ptOfFSPoint) eps).map
      (fun i => s.actions.getD i ⟨0, 0⟩)
  rw [List.map_map]
  apply List.map_congr_left
  intro i hi
  have hmem := (rdp_sublist (s.actions.map ptOfFSPoint) eps).subset hi
  rw [List.mem_range, List.length_map] at hmem
  show fspointOfPt ((s.actions.map ptOfFSPoint).getD i (0, 0)) =
    s.actions.getD i ⟨0, 0⟩
  rw [List.getD_eq_getElem?_getD, List.getElem?_map,
    List.getD_eq_getElem?_getD, List.getElem?_eq_getElem hmem]
  rfl

theorem head?_eq_getD {α : Type} (l : List α) (d : α) (h : l ≠ []) :
    l.head? = some (l.getD 0 d) := by
  cases l with
  | nil => simp at h
  | cons a t => rfl

theorem getLast?_eq_getD {α : Type} (l : List α) (d : α) (h : l ≠ []) :
    l.getLast? = some (l.getD (l.length - 1) d) := by
  have hlt : l.length - 1 < l.length := by
    cases l with
    | nil => simp at h
    | cons a t => simp
  rw [List.getLast?_eq_getElem?, List.getD_eq_getElem?_getD,
    List.getElem?_eq_getElem hlt]
  rfl

theorem apply_rdp_eq_self_of_actions (s : FScript) (eps : ℚ)
    (h : (apply_rdp s eps).actions = s.actions) : apply_rdp s eps = s := by
  have hrepr : apply_rdp s eps =
      { s with actions := (apply_rdp s eps).actions } := rfl
  rw [hrepr, h]

/-! Claim theorems. -/

/-- Claim C1 (round-trip fidelity): for every well-formed document `d`
(every integer field within its Rust machine-integer range, which the
Rust types guarantee), parsing the serialization of `d` returns exactly
`d`, opaque `clips` entries and default-filled metadata included. -/
theorem parse_serialize_roundtrip (d : FScript) (h : d.WF) :
    parseFScript (serializeFScript d) = .ok d := by
  obtain ⟨hr, hbm, hlp, hgd, his, hsm, has, hsim, hact, hraw, hmeta⟩ := h
  have hsims : parseListOf parseSimulatorPresets
      (.arr (d.simulator_presets.map serializeSimulatorPresets)) =
      .ok d.simulator_presets :=
    parseListOf_map _ _ _
      (fun x hx => parseSimulatorPresets_serialize x (hsim x hx))
  have hacts : parseListOf parseFSPoint
      (.arr (d.actions.map serializeFSPoint)) = .ok d.actions :=
    parseListOf_map _ _ _ (fun x hx => parseFSPoint_serialize x (hact x hx))
  have hraws : parseListOf parseFSPoint
      (.arr (d.raw_actions.map serializeFSPoint)) = .ok d.raw_actions :=
    parseListOf_map _ _ _ (fun x hx => parseFSPoint_serialize x (hraw x hx))
  simp [parseFScript, serializeFScript, optField, allRecognized,
    distinctKeys, fscriptKeys, List.lookup, hsims, hacts, hraws,
    parseI32_serializeInt _ hr, parseI32_serializeInt _ hbm,
    parseI64_serializeInt _ hlp, parseI32_serializeInt _ hgd,
    parseI32_serializeInt _ his, parseI32_serializeInt _ hsm,
    parseI32_serializeInt _ has, parseOFSMetadata_serialize _ hmeta,
    parseClips]
  rfl

/-- Witness for C1: the round trip evaluated at the default document. -/
theorem parse_serialize_roundtrip_witness :
    parseFScript (serializeFScript FScript.default) = .ok FScript.default :=
  parse_serialize_roundtrip FScript.default
    (by unfold FScript.WF OFSMetadata.WF SimulatorPresets.WF FSPoint.WF
          isI32 isI64
        decide)

/-- Claim C2, counterexample: the input `{"metadata": {}}` uses only
recognized keys at every level, yet Parse fails, because `OFSMetadata`
carries no `#[serde(default)]` and all of its fields are required; so
default-filling is not total across nested objects as claimed. -/
theorem parse_default_fill_counterexample :
    (parseFScript (.obj [("metadata", Json.obj [])])).isOk = false := rfl

/-- Claim C2, amended: default-filling is total for the top level only.
Parse of the empty object yields the all-defaults document, a present
top-level field overrides its default, and a nested `metadata` object
parses exactly when all of its fields are present. -/
theorem parse_default_fill_amended :
    parseFScript (.obj []) = .ok FScript.default ∧
    parseFScript (.obj [("range", .num 5)]) =
      .ok { FScript.default with range := 5 } ∧
    parseFScript
        (.obj [("metadata", serializeOFSMetadata FScript.default.metadata)]) =
      .ok FScript.default := by
  refine ⟨rfl, rfl, ?_⟩
  rfl

/-- Claim C3 (strict-field rejection): whenever a document parses
successfully, adding one unrecognized top-level key makes Parse fail
(`deny_unknown_fields`); the `Except` result carries no partial
document.  The hypothesis `hok` is the removed-key success half of the
claim. -/
theorem parseFScript_unknown_key_rejected (fields : List (String × Json))
    (k : String) (v : Json) (d : FScript)
    (hok : parseFScript (.obj fields) = .ok d)
    (hk : fscriptKeys.contains k = false) :
    ∃ msg, parseFScript (.obj (fields ++ [(k, v)])) = .error msg := by
  have hall : allRecognized fscriptKeys fields = true := by
    by_contra hno
    rw [Bool.not_eq_true] at hno
    simp [parseFScript, hno] at hok
  have hall2 : allRecognized fscriptKeys (fields ++ [(k, v)]) = false := by
    unfold allRecognized at hall ⊢
    rw [List.all_append, hall, Bool.true_and]
    simp only [List.all_cons, List.all_nil, Bool.and_true]
    exact hk
  exact ⟨"unknown field", by simp [parseFScript, hall2]⟩

/-- Witness for C3: the empty document parses, and adding the single
unrecognized key "foo" makes Parse fail. -/
theorem parseFScript_unknown_key_rejected_witness :
    (parseFScript (.obj [("foo", Json.null)])).isOk = false := by
  obtain ⟨m, hm⟩ := parseFScript_unknown_key_rejected [] "foo" Json.null
    FScript.default rfl rfl
  rw [List.nil_append] at hm
  rw [hm]
  rfl

/-- Claim C4 (simplification preserves endpoints and the raw backup):
for a non-empty action list and `epsilon ≥ 0`, simplification keeps the
first and last points, returns the retained points as a subsequence of
the original order, and leaves `raw_actions` untouched. -/
theorem apply_rdp_preserves_endpoints (s : FScript) (eps : ℚ)
    (_h0 : 0 ≤ eps) (hne : s.actions ≠ []) :
    (apply_rdp s eps).actions.head? = s.actions.head? ∧
    (apply_rdp s eps).actions.getLast? = s.actions.getLast? ∧
    List.Sublist (apply_rdp s eps).actions s.actions ∧
    (apply_rdp s eps).raw_actions = s.raw_actions := by
  have hpts : s.actions.map ptOfFSPoint ≠ [] := by
    simpa using hne
  refine ⟨?_, ?_, ?_, rfl⟩
  · rw [apply_rdp_actions_eq, List.head?_map, rdp_head _ _ hpts,
      head?_eq_getD s.actions ⟨0, 0⟩ hne]
    rfl
  · rw [apply_rdp_actions_eq, List.getLast?_map, rdp_getLast _ _ hpts,
      getLast?_eq_getD s.actions ⟨0, 0⟩ hne]
    simp
  · have hsub := rdp_sublist (s.actions.map ptOfFSPoint) eps
    rw [List.length_map] at hsub
    rw [apply_rdp_actions_eq]
    have hmap := List.Sublist.map
      (fun i => s.actions.getD i (⟨0, 0⟩ : FSPoint)) hsub
    rw [range_map_getD] at hmap
    exact hmap

/-- Witness for C4 at the three-point sample document with epsilon 1. -/
theorem apply_rdp_preserves_endpoints_witness :
    (apply_rdp sampleScript 1).actions.head? = sampleScript.actions.head? ∧
    (apply_rdp sampleScript 1).actions.getLast? =
      sampleScript.actions.getLast? ∧
    List.Sublist (apply_rdp sampleScript 1).actions sampleScript.actions ∧
    (apply_rdp sampleScript 1).raw_actions = sampleScript.raw_actions :=
  apply_rdp_preserves_endpoints sampleScript 1 zero_le_one
    (by exact List.cons_ne_nil _ _)

/-- Claim C5 (simplification totality and degenerate cases): `apply_rdp`
is a total function of the document and epsilon (it has no error path by
construction), an action list with 0 or 1 points is left unchanged, and
a list with exactly 2 points is returned with both points unchanged. -/
theorem apply_rdp_degenerate (s : FScript) (eps : ℚ) (_h0 : 0 ≤ eps) :
    (s.actions.length ≤ 1 → apply_rdp s eps = s) ∧
    (s.actions.length = 2 → apply_rdp s eps = s) := by
  constructor
  · intro hlen
    apply apply_rdp_eq_self_of_actions
    rw [apply_rdp_actions_eq]
    cases hs : s.actions with
    | nil => rfl
    | cons a t =>
        cases t with
        | nil => rfl
        | cons b t2 => rw [hs] at hlen; simp at hlen
  · intro hlen
    apply apply_rdp_eq_self_of_actions
    rw [apply_rdp_actions_eq]
    cases hs : s.actions with
    | nil => rw [hs] at hlen; simp at hlen
    | cons a t =>
        cases t with
        | nil => rw [hs] at hlen; simp at hlen
        | cons b t2 =>
            cases t2 with
            | nil => rfl
            | cons c t3 => rw [hs] at hlen; simp at hlen

/-- Witness for C5 at a one-point and a two-point document. -/
theorem apply_rdp_degenerate_witness :
    apply_rdp onePointScript 1 = onePointScript ∧
    apply_rdp twoPointScript 1 = twoPointScript :=
  ⟨(apply_rdp_degenerate onePointScript 1 zero_le_one).1 (by decide),
   (apply_rdp_degenerate twoPointScript 1 zero_le_one).2 (by decide)⟩

/-- Claim C6 (extension guard): saving to a path that does not end in
".funscript" returns the extension error with the filesystem unchanged
(no file created or modified), and that error is identified among
`FileReadError` values by its kind and message. -/
theorem save_funscript_extension_guard (fs : FileSys) (path : String)
    (script : FScript) (h : rustEndsWith path ".funscript" = false) :
    save_funscript fs path script = (.error invalidExtensionError, fs) ∧
    ∀ e : IOErr, FunscriptError.FileReadError e = invalidExtensionError →
      e.kind = IOErrorKind.other ∧ e.msg = "invalid file extension" := by
  constructor
  · unfold save_funscript
    rw [h]
    rfl
  · intro e he
    unfold invalidExtensionError at he
    injection he with h2
    rw [h2]
    exact ⟨rfl, rfl⟩

/-- Witness for C6: saving to "script.txt" on an empty filesystem. -/
theorem save_funscript_extension_guard_witness :
    save_funscript [] "script.txt" FScript.default =
      (.error invalidExtensionError, []) :=
  (save_funscript_extension_guard [] "script.txt" FScript.default
    (by decide)).1

/-- Claim C7 (point-access bounds): `get_pt` with an index at or past
the end fails with the point error carrying exactly that index;
on a non-empty list `get_pt` at 0 succeeds, and a write through the
returned handle (modelled by `set_pt`) is visible at `actions[0]`. -/
theorem get_pt_bounds (s : FScript) (idx : Nat) (p : FSPoint) :
    (idx ≥ s.actions.length →
      get_pt s idx = .error (.PointError "get" idx)) ∧
    (s.actions ≠ [] →
      get_pt s 0 = .ok (s.actions.getD 0 ⟨0, 0⟩) ∧
      (set_pt s 0 p).actions.head? = some p) := by
  constructor
  · intro h
    unfold get_pt
    rw [if_pos h]
  · intro h
    have hlt : 0 < s.actions.length := List.length_pos.mpr h
    constructor
    · unfold get_pt
      rw [if_neg (by omega)]
    · show (s.actions.set 0 p).head? = some p
      cases hs : s.actions with
      | nil => exact absurd hs h
      | cons a t => rfl

/-- Witness for C7 at the three-point sample document: index 5 fails
carrying 5, index 0 succeeds, and a write through the handle is seen. -/
theorem get_pt_bounds_witness :
    get_pt sampleScript 5 = .error (.PointError "get" 5) ∧
    get_pt sampleScript 0 = .ok (sampleScript.actions.getD 0 ⟨0, 0⟩) ∧
    (set_pt sampleScript 0 ⟨9, 9⟩).actions.head? = some (⟨9, 9⟩ : FSPoint) :=
  ⟨(get_pt_bounds sampleScript 5 ⟨9, 9⟩).1 (by decide),
   ((get_pt_bounds sampleScript 0 ⟨9, 9⟩).2
     (by exact List.cons_ne_nil _ _)).1,
   ((get_pt_bounds sampleScript 0 ⟨9, 9⟩).2
     (by exact List.cons_ne_nil _ _)).2⟩

/-- Claim C8 (simplification monotonicity): starting from the same
original action sequence, a larger tolerance never retains more points
(tolerances are nonnegative per the simplifier's input contract). -/
theorem apply_rdp_length_antitone (s : FScript) (e1 e2 : ℚ) (h0 : 0 ≤ e1)
    (h12 : e1 ≤ e2) :
    (apply_rdp s e2).actions.length ≤ (apply_rdp s e1).actions.length := by
  rw [apply_rdp_actions_eq, apply_rdp_actions_eq, List.length_map,
    List.length_map]
  exact (rdp_mono (s.actions.map ptOfFSPoint) e1 e2 h0 h12).length_le

/-- Witness for C8 at the three-point sample document, tolerances 1 and 2. -/
theorem apply_rdp_length_antitone_witness :
    (apply_rdp sampleScript 2).actions.length ≤
      (apply_rdp sampleScript 1).actions.length :=
  apply_rdp_length_antitone sampleScript 1 2 zero_le_one one_le_two

/-- Claim C9, counterexample: the serialized metadata keys of the
default document contain "script_url" and "video_url" (the explicit
`#[serde(rename = ...)]` names), not the camelCase "scriptUrl" and
"videoUrl" the claim enumerates. -/
theorem serializeOFSMetadata_camelCase_counterexample :
    (Json.objKeys
      (serializeOFSMetadata FScript.default.metadata)).contains "scriptUrl"
        = false ∧
    (Json.objKeys
      (serializeOFSMetadata FScript.default.metadata)).contains "script_url"
        = true ∧
    (Json.objKeys
      (serializeOFSMetadata FScript.default.metadata)).contains "videoUrl"
        = false ∧
    (Json.objKeys
      (serializeOFSMetadata FScript.default.metadata)).contains "video_url"
        = true := by
  decide

/-- Claim C9, amended: Serialize emits exactly the recognized key lists
that Parse checks against; those are camelCase except the metadata keys
`script_url` and `video_url` (explicit renames) and `type` for
`ofs_type`; Parse rejects the camelCase spelling "scriptUrl". -/
theorem serialize_field_names_amended (d : FScript) :
    Json.objKeys (serializeFScript d) = fscriptKeys ∧
    Json.objKeys (serializeOFSMetadata d.metadata) = ofsMetadataKeys ∧
    (∀ s : SimulatorPresets,
      Json.objKeys (serializeSimulatorPresets s) = simulatorKeys) ∧
    (∀ p : FSPoint, Json.objKeys (serializeFSPoint p) = fspointKeys) ∧
    ofsMetadataKeys = ["bookmarks", "chapters", "creator", "description",
      "duration", "license", "notes", "performers", "script_url", "tags",
      "title", "type", "video_url"] ∧
    fscriptKeys = ["version", "inverted", "range", "bookmark",
      "lastPosition", "graphDuration", "speedRatio", "injectionSpeed",
      "injectionBias", "scriptingMode", "simulatorPresets",
      "activeSimulator", "reductionTolerance", "reductionStretch",
      "clips", "actions", "rawActions", "metadata"] ∧
    (parseOFSMetadata (.obj [("scriptUrl", Json.str "")])).isOk = false :=
  ⟨rfl, rfl, fun _ => rfl, fun _ => rfl, rfl, rfl, rfl⟩

/-- Claim C10 (frame property of simplification): `apply_rdp` changes
only the `actions` field; every other field of the document is left
unchanged. -/
theorem apply_rdp_frame (s : FScript) (eps : ℚ) :
    (apply_rdp s eps).version = s.version ∧
    (apply_rdp s eps).inverted = s.inverted ∧
    (apply_rdp s eps).range = s.range ∧
    (apply_rdp s eps).bookmark = s.bookmark ∧
    (apply_rdp s eps).last_position = s.last_position ∧
    (apply_rdp s eps).graph_duration = s.graph_duration ∧
    (apply_rdp s eps).speed_ratio_val = s.speed_ratio_val ∧
    (apply_rdp s eps).injection_speed = s.injection_speed ∧
    (apply_rdp s eps).injection_bias = s.injection_bias ∧
    (apply_rdp s eps).scripting_mode = s.scripting_mode ∧
    (apply_rdp s eps).simulator_presets = s.simulator_presets ∧
    (apply_rdp s eps).active_simulator = s.active_simulator ∧
    (apply_rdp s eps).reduction_tolerance = s.reduction_tolerance ∧
    (apply_rdp s eps).reduction_stretch = s.reduction_stretch ∧
    (apply_rdp s eps).clips = s.clips ∧
    (apply_rdp s eps).raw_actions = s.raw_actions ∧
    (apply_rdp s eps).metadata = s.metadata :=
  ⟨rfl, rfl, rfl, rfl, rfl, rfl, rfl, rfl, rfl, rfl, rfl, rfl, rfl, rfl,
   rfl, rfl, rfl⟩

end Funscript
